import Mathlib

/-!
# Verification of `stack_pool.hpp`

Shallow embedding of the `stack_pool` class template from
`src/exam/stack_pool.hpp`, instantiated at `T = Int` (values) and
`N = std::size_t = Nat` (handles).  The C++ class keeps a growable
vector of nodes (`value`, `next`) plus a distinguished handle
`free_nodes` heading the free list; handle `0` is the sentinel.

Operations that throw (`AP_ERROR` raising `Invalid_input`) are modelled
as returning `none`; mutating operations are modelled in state-passing
style, returning `Option result × StackPool` so that the pool state at
the moment of failure is observable (the C++ object survives a thrown
exception with whatever mutations already happened).
-/

set_option autoImplicit false

/-- The `node_t` struct of `stack_pool`: a value plus the handle of the
next node. -/
structure Node where
  value : Int
  next : Nat
deriving DecidableEq, Repr, Inhabited

/-- The `stack_pool` data members: the vector `pool` of nodes and the
handle `free_nodes` heading the free list. -/
structure StackPool where
  pool : List Node
  free_nodes : Nat
deriving DecidableEq, Repr, Inhabited

namespace StackPool

/-- `stack_pool()` : empty vector, `free_nodes = end() = 0`. -/
def init : StackPool := ⟨[], 0⟩

/-- `end()` : the sentinel handle, `stack_type(0)`. -/
def endh : Nat := 0

/-- `new_stack()` : returns the sentinel, no side effect. -/
def new_stack : Nat := endh

/-- The check of the macro `AP_ERROR_CUSTOM_POSITIVE(a)`:
`a >= end() && a <= pool.size()`.  `a >= 0` is vacuous for `size_t`. -/
def checkPositive (s : StackPool) (a : Nat) : Bool :=
  a ≤ s.pool.length

/-- The check of the macro `AP_ERROR_CUSTOM_STRICT_POSITIVE(a)`:
`a > end() && a <= pool.size()`. -/
def checkStrictPositive (s : StackPool) (a : Nat) : Bool :=
  0 < a && a ≤ s.pool.length

/-- `value(x)` : `AP_ERROR_CUSTOM_STRICT_POSITIVE(x)` then
`node(x).value`, i.e. `pool[x-1].value`.  `none` models the thrown
`Invalid_input`. -/
def value? (s : StackPool) (x : Nat) : Option Int :=
  if checkStrictPositive s x then (s.pool[x - 1]?).map Node.value else none

/-- `next(x)` : `AP_ERROR_CUSTOM_STRICT_POSITIVE(x)` then
`node(x).next`, i.e. `pool[x-1].next`. -/
def next? (s : StackPool) (x : Nat) : Option Nat :=
  if checkStrictPositive s x then (s.pool[x - 1]?).map Node.next else none

/-- `empty(x)` : `AP_ERROR_CUSTOM_POSITIVE(x)` then `x == end()`. -/
def empty? (s : StackPool) (x : Nat) : Option Bool :=
  if checkPositive s x then some (x == 0) else none

/-- `_push(val, head)`.  The leading `AP_ASSERT(head >= end())` is
vacuous for an unsigned `N`.  `empty(free_nodes)` performs the
`AP_ERROR_CUSTOM_POSITIVE(free_nodes)` check; if the free list is empty
the node is appended (`emplace_back`) and the new handle is the new
vector size, otherwise the head of the free list is recycled: its value
becomes `val`, its next becomes `head`, and `free_nodes` advances to
`next(free_nodes)`. -/
def pushImpl (s : StackPool) (v : Int) (head : Nat) : Option Nat × StackPool :=
  match empty? s s.free_nodes with
  | none => (none, s)
  | some true =>
      (some (s.pool.length + 1), ⟨s.pool ++ [⟨v, head⟩], s.free_nodes⟩)
  | some false =>
      match s.pool[s.free_nodes - 1]? with
      | none => (none, s)  -- unreachable: `empty?` succeeded with `free_nodes ≤ length` and `free_nodes ≠ 0`
      | some nd =>
          (some s.free_nodes, ⟨s.pool.set (s.free_nodes - 1) ⟨v, head⟩, nd.next⟩)

/-- `push(val, head)` : `AP_ERROR_CUSTOM_POSITIVE(head)` then `_push`. -/
def push (s : StackPool) (v : Int) (head : Nat) : Option Nat × StackPool :=
  if checkPositive s head then pushImpl s v head else (none, s)

/-- `pop(x)` : `AP_ERROR_CUSTOM_STRICT_POSITIVE(x)`, then the
`x != free_nodes` check, then `new_head = next(x); next(x) = free_nodes;
free_nodes = x; return new_head`. -/
def pop (s : StackPool) (x : Nat) : Option Nat × StackPool :=
  if checkStrictPositive s x then
    if x ≠ s.free_nodes then
      match s.pool[x - 1]? with
      | none => (none, s)  -- unreachable given the strict check
      | some nd =>
          (some nd.next, ⟨s.pool.set (x - 1) ⟨nd.value, s.free_nodes⟩, x⟩)
    else (none, s)
  else (none, s)

/-- The `while (!empty(x)) { x = this->pop(x); }` loop of `free_stack`,
with explicit fuel (the C++ loop has no bound; `none` is returned when
fuel runs out, alongside failure of the inner `empty`/`pop` calls). -/
def freeStackLoop : Nat → StackPool → Nat → Option Nat × StackPool
  | 0, s, _ => (none, s)
  | fuel + 1, s, x =>
      match empty? s x with
      | none => (none, s)
      | some true => (some x, s)
      | some false =>
          match pop s x with
          | (some x2, s2) => freeStackLoop fuel s2 x2
          | (none, s2) => (none, s2)

/-- `free_stack(x)` : `AP_ERROR_CUSTOM_STRICT_POSITIVE(x)`, then the
`x != free_nodes` check, then the pop loop until `empty(x)`. -/
def free_stack (fuel : Nat) (s : StackPool) (x : Nat) : Option Nat × StackPool :=
  if checkStrictPositive s x then
    if x ≠ s.free_nodes then freeStackLoop fuel s x
    else (none, s)
  else (none, s)

end StackPool

/-- The `_iterator` class: a pool plus the handle of the current node
(the C++ class stores a pointer to the pool). -/
structure Iterator where
  pool : StackPool
  current : Nat
deriving DecidableEq, Repr

namespace Iterator

/-- `operator==` on iterators: compares the current handles only. -/
def beq (x y : Iterator) : Bool :=
  x.current == y.current

/-- `operator!=` : negation of `operator==`. -/
def bne (x y : Iterator) : Bool :=
  !(beq x y)

/-- `operator++` : `current = pool->next(current)`; fails if `next`
throws. -/
def succ? (i : Iterator) : Option Iterator :=
  (StackPool.next? i.pool i.current).map (fun n => ⟨i.pool, n⟩)

end Iterator

namespace StackPool

/-- `begin(x)` : `AP_ERROR_CUSTOM_POSITIVE(x)` then `iterator(this, x)`. -/
def begin? (s : StackPool) (x : Nat) : Option Iterator :=
  if checkPositive s x then some ⟨s, x⟩ else none

/-- `end(stack_type)` : ignores its argument, returns
`iterator(this, end())`. -/
def endIter (s : StackPool) (_ : Nat) : Iterator :=
  ⟨s, 0⟩

/-- Iteration as in `print_stack`: read the values from handle `x`
following `next` until the sentinel (with fuel bounding the walk). -/
def iterList : Nat → StackPool → Nat → Option (List Int)
  | 0, _, _ => none
  | fuel + 1, s, x =>
      if x = 0 then some []
      else
        match value? s x, next? s x with
        | some v, some n2 => (iterList fuel s n2).map (fun l => v :: l)
        | _, _ => none

end StackPool

namespace StackPool

/-- `isChain p h hs` : `hs` is exactly the list of handles of the chain
that starts at handle `h` and follows the `next` fields of `p` down to
the sentinel. -/
def isChain (p : List Node) : Nat → List Nat → Bool
  | h, [] => h == 0
  | h, x :: xs =>
      h == x && decide (0 < x) &&
        match p[x - 1]? with
        | some nd => isChain p nd.next xs
        | none => false

/-- `isVChain p h L` : the chain starting at `h` consists exactly of the
handles `L.map Prod.fst`, carrying the values `L.map Prod.snd`, and ends
at the sentinel. -/
def isVChain (p : List Node) : Nat → List (Nat × Int) → Bool
  | h, [] => h == 0
  | h, e :: xs =>
      h == e.1 && decide (0 < e.1) &&
        match p[e.1 - 1]? with
        | some nd => nd.value == e.2 && isVChain p nd.next xs
        | none => false

/-- Push the values `vs`, in order, onto the stack currently headed by
`h` (each push yields the new head). -/
def pushMany (s : StackPool) (h : Nat) : List Int → Option (StackPool × Nat)
  | [] => some (s, h)
  | v :: vs =>
      match push s v h with
      | (some h2, s2) => pushMany s2 h2 vs
      | (none, _) => none

/-- Perform `n` pops from head `h`, reading the head value (`value(h)`)
before each pop; returns the values read, the final pool and the final
head. -/
def popReadMany : Nat → StackPool → Nat → Option (List Int × StackPool × Nat)
  | 0, s, h => some ([], s, h)
  | n + 1, s, h =>
      match value? s h with
      | none => none
      | some v =>
          match pop s h with
          | (some h2, s2) =>
              match popReadMany n s2 h2 with
              | some (vs, s3, h3) => some (v :: vs, s3, h3)
              | none => none
          | (none, _) => none

/-- Follow the `next` field `n` times from handle `x` (reading `0` when
`next` fails), as an iterator walk does. -/
def nextIter (s : StackPool) : Nat → Nat → Nat
  | 0, x => x
  | n + 1, x => nextIter s n ((next? s x).getD 0)

/-- The invariant tying a stack chain (`h`, `L`), a framed second chain
(`hm`, `M`) and the free list chain `fs` of one pool: all three are
chains of `s` and their handles are pairwise distinct. -/
def ChainInv (s : StackPool) (h : Nat) (L : List (Nat × Int)) (hm : Nat)
    (M : List (Nat × Int)) (fs : List Nat) : Prop :=
  isVChain s.pool h L = true ∧ isVChain s.pool hm M = true ∧
    isChain s.pool s.free_nodes fs = true ∧
    (L.map Prod.fst ++ (M.map Prod.fst ++ fs)).Nodup

end StackPool

/-- One public operation of a client owning two stacks `A` and `B` of
the same pool. -/
inductive SOp where
  | pushA (v : Int)
  | pushB (v : Int)
  | popA
  | popB
deriving DecidableEq, Repr

/-- A pool together with the head handles of the two client stacks. -/
structure TwoCfg where
  s : StackPool
  a : Nat
  b : Nat
deriving DecidableEq, Repr

namespace TwoCfg

/-- Run one operation on the two-stack configuration; `none` when the
underlying pool operation throws. -/
def runOp (c : TwoCfg) : SOp → Option TwoCfg
  | .pushA v =>
      match StackPool.push c.s v c.a with
      | (some h, s2) => some ⟨s2, h, c.b⟩
      | (none, _) => none
  | .pushB v =>
      match StackPool.push c.s v c.b with
      | (some h, s2) => some ⟨s2, c.a, h⟩
      | (none, _) => none
  | .popA =>
      match StackPool.pop c.s c.a with
      | (some h, s2) => some ⟨s2, h, c.b⟩
      | (none, _) => none
  | .popB =>
      match StackPool.pop c.s c.b with
      | (some h, s2) => some ⟨s2, c.a, h⟩
      | (none, _) => none

/-- Run a whole history of operations. -/
def runOps : TwoCfg → List SOp → Option TwoCfg
  | c, [] => some c
  | c, op :: ops =>
      match runOp c op with
      | some c2 => runOps c2 ops
      | none => none

/-- The starting configuration: an empty pool and two fresh stacks
obtained from `new_stack()`. -/
def initCfg : TwoCfg :=
  ⟨StackPool.init, StackPool.new_stack, StackPool.new_stack⟩

/-- The two chains of a configuration together with the free list are
pairwise disjoint chains of the pool. -/
def TwoInv (c : TwoCfg) : Prop :=
  ∃ LA LB fs, StackPool.isVChain c.s.pool c.a LA = true ∧
    StackPool.isVChain c.s.pool c.b LB = true ∧
    StackPool.isChain c.s.pool c.s.free_nodes fs = true ∧
    (LA.map Prod.fst ++ (LB.map Prod.fst ++ fs)).Nodup

end TwoCfg

namespace StackPool

theorem isChain_nil_iff (p : List Node) (h : Nat) :
    isChain p h [] = true ↔ h = 0 := by
  simp [isChain]

theorem isChain_cons_iff (p : List Node) (h x : Nat) (xs : List Nat) :
    isChain p h (x :: xs) = true ↔
      h = x ∧ 0 < x ∧ ∃ nd, p[x - 1]? = some nd ∧ isChain p nd.next xs = true := by
  simp only [isChain, Bool.and_eq_true, beq_iff_eq, decide_eq_true_eq]
  cases hg : p[x - 1]? with
  | none => simp [hg, and_assoc]
  | some nd => simp [hg, and_assoc]

theorem isVChain_nil_iff (p : List Node) (h : Nat) :
    isVChain p h [] = true ↔ h = 0 := by
  simp [isVChain]

theorem isVChain_cons_iff (p : List Node) (h : Nat) (e : Nat × Int)
    (xs : List (Nat × Int)) :
    isVChain p h (e :: xs) = true ↔
      h = e.1 ∧ 0 < e.1 ∧ ∃ nd, p[e.1 - 1]? = some nd ∧ nd.value = e.2 ∧
        isVChain p nd.next xs = true := by
  simp only [isVChain, Bool.and_eq_true, beq_iff_eq, decide_eq_true_eq]
  cases hg : p[e.1 - 1]? with
  | none => simp [hg, and_assoc]
  | some nd => simp [hg, and_assoc]

theorem isVChain_mem_pos_le (p : List Node) (h : Nat) (L : List (Nat × Int))
    (hc : isVChain p h L = true) :
    ∀ y ∈ L.map Prod.fst, 0 < y ∧ y ≤ p.length := by
  induction L generalizing h with
  | nil => simp
  | cons e xs ih =>
      rcases (isVChain_cons_iff p h e xs).mp hc with ⟨_, hpos, nd, hget, _, hrest⟩
      intro y hy
      simp only [List.map_cons, List.mem_cons] at hy
      rcases hy with rfl | hy
      · have hlt := (List.getElem?_eq_some.mp hget).1
        exact ⟨hpos, by omega⟩
      · exact ih nd.next hrest y (by simpa using hy)

theorem isChain_mem_pos_le (p : List Node) (h : Nat) (hs : List Nat)
    (hc : isChain p h hs = true) :
    ∀ y ∈ hs, 0 < y ∧ y ≤ p.length := by
  induction hs generalizing h with
  | nil => simp
  | cons x xs ih =>
      rcases (isChain_cons_iff p h x xs).mp hc with ⟨_, hpos, nd, hget, hrest⟩
      intro y hy
      rcases List.mem_cons.mp hy with rfl | hy
      · have hlt := (List.getElem?_eq_some.mp hget).1
        exact ⟨hpos, by omega⟩
      · exact ih nd.next hrest y hy

theorem isVChain_head_le (p : List Node) (h : Nat) (L : List (Nat × Int))
    (hc : isVChain p h L = true) : h ≤ p.length := by
  cases L with
  | nil =>
      have h0 : h = 0 := (isVChain_nil_iff p h).mp hc
      omega
  | cons e xs =>
      rcases (isVChain_cons_iff p h e xs).mp hc with ⟨rfl, hpos, nd, hget, _⟩
      have hlt : e.1 - 1 < p.length := (List.getElem?_eq_some.mp hget).1
      omega

theorem isVChain_congr (p p2 : List Node) (h : Nat) (L : List (Nat × Int))
    (hag : ∀ y ∈ L.map Prod.fst, p2[y - 1]? = p[y - 1]?)
    (hc : isVChain p h L = true) : isVChain p2 h L = true := by
  induction L generalizing h with
  | nil => simpa [isVChain_nil_iff] using (isVChain_nil_iff p h).mp hc
  | cons e xs ih =>
      rcases (isVChain_cons_iff p h e xs).mp hc with
        ⟨rfl, hpos, nd, hget, hval, hrest⟩
      refine (isVChain_cons_iff p2 e.1 e xs).mpr ⟨rfl, hpos, nd, ?_, hval, ?_⟩
      · rw [hag e.1 (by simp), hget]
      · exact ih nd.next (fun y hy => hag y (by simp [hy])) hrest

theorem isChain_congr (p p2 : List Node) (h : Nat) (hs : List Nat)
    (hag : ∀ y ∈ hs, p2[y - 1]? = p[y - 1]?)
    (hc : isChain p h hs = true) : isChain p2 h hs = true := by
  induction hs generalizing h with
  | nil => simpa [isChain_nil_iff] using (isChain_nil_iff p h).mp hc
  | cons x xs ih =>
      rcases (isChain_cons_iff p h x xs).mp hc with ⟨heq, hpos, nd, hget, hrest⟩
      refine (isChain_cons_iff p2 h x xs).mpr ⟨heq, hpos, nd, ?_, ?_⟩
      · rw [hag x (by simp), hget]
      · exact ih nd.next (fun y hy => hag y (by simp [hy])) hrest

theorem isVChain_append (p q : List Node) (h : Nat) (L : List (Nat × Int))
    (hc : isVChain p h L = true) : isVChain (p ++ q) h L = true := by
  refine isVChain_congr p (p ++ q) h L (fun y hy => ?_) hc
  have hb := isVChain_mem_pos_le p h L hc y hy
  exact List.getElem?_append_left (by omega)

theorem isChain_append (p q : List Node) (h : Nat) (hs : List Nat)
    (hc : isChain p h hs = true) : isChain (p ++ q) h hs = true := by
  refine isChain_congr p (p ++ q) h hs (fun y hy => ?_) hc
  have hb := isChain_mem_pos_le p h hs hc y hy
  exact List.getElem?_append_left (by omega)

theorem isVChain_set (p : List Node) (x : Nat) (nd : Node) (h : Nat)
    (L : List (Nat × Int)) (hx : x ∉ L.map Prod.fst) (hxpos : 0 < x)
    (hc : isVChain p h L = true) : isVChain (p.set (x - 1) nd) h L = true := by
  refine isVChain_congr p (p.set (x - 1) nd) h L (fun y hy => ?_) hc
  have hb := isVChain_mem_pos_le p h L hc y hy
  have hne : x - 1 ≠ y - 1 := by
    intro e
    have hxy : x = y := by omega
    exact hx (hxy ▸ hy)
  exact List.getElem?_set_ne hne

theorem isChain_set (p : List Node) (x : Nat) (nd : Node) (h : Nat)
    (hs : List Nat) (hx : x ∉ hs) (hxpos : 0 < x)
    (hc : isChain p h hs = true) : isChain (p.set (x - 1) nd) h hs = true := by
  refine isChain_congr p (p.set (x - 1) nd) h hs (fun y hy => ?_) hc
  have hb := isChain_mem_pos_le p h hs hc y hy
  have hne : x - 1 ≠ y - 1 := by
    intro e
    have hxy : x = y := by omega
    exact hx (hxy ▸ hy)
  exact List.getElem?_set_ne hne

theorem isVChain_cons_intro (p : List Node) (x : Nat) (v : Int) (h : Nat)
    (L : List (Nat × Int)) (hget : p[x - 1]? = some ⟨v, h⟩) (hpos : 0 < x)
    (hc : isVChain p h L = true) : isVChain p x ((x, v) :: L) = true :=
  (isVChain_cons_iff p x (x, v) L).mpr ⟨rfl, hpos, ⟨v, h⟩, hget, rfl, hc⟩

theorem isChain_cons_intro (p : List Node) (x h : Nat) (hs : List Nat)
    (nd : Node) (hget : p[x - 1]? = some nd) (hnext : nd.next = h) (hpos : 0 < x)
    (hc : isChain p h hs = true) : isChain p x (x :: hs) = true :=
  (isChain_cons_iff p x x hs).mpr ⟨rfl, hpos, nd, hget, hnext ▸ hc⟩

theorem isVChain_unique (p : List Node) (h : Nat) (L L2 : List (Nat × Int))
    (h1 : isVChain p h L = true) (h2 : isVChain p h L2 = true) : L = L2 := by
  induction L generalizing h L2 with
  | nil =>
      have h0 : h = 0 := (isVChain_nil_iff p h).mp h1
      cases L2 with
      | nil => rfl
      | cons e xs =>
          rcases (isVChain_cons_iff p h e xs).mp h2 with ⟨rfl, hpos, _⟩
          omega
  | cons e xs ih =>
      rcases (isVChain_cons_iff p h e xs).mp h1 with
        ⟨he, hpos, nd, hget, hval, hrest⟩
      cases L2 with
      | nil =>
          have h0 : h = 0 := (isVChain_nil_iff p h).mp h2
          omega
      | cons e2 xs2 =>
          rcases (isVChain_cons_iff p h e2 xs2).mp h2 with
            ⟨he2, hpos2, nd2, hget2, hval2, hrest2⟩
          have hfst : e.1 = e2.1 := by omega
          have hnd : nd = nd2 := by
            rw [← he2, he] at hget2
            exact Option.some.inj (hget.symm.trans hget2)
          have hsnd : e.2 = e2.2 := by rw [← hval, hnd, hval2]
          have hxs : xs = xs2 := ih nd.next xs2 hrest (by rw [hnd]; exact hrest2)
          have he' : e = e2 := Prod.ext hfst hsnd
          rw [he', hxs]

end StackPool

namespace StackPool

theorem nodup_middle_iff (f : Nat) (a b c : List Nat) :
    (a ++ (b ++ f :: c)).Nodup ↔ (f :: (a ++ (b ++ c))).Nodup := by
  have h1 : (b ++ f :: c).Perm (f :: (b ++ c)) := List.perm_middle
  have h2 : (a ++ (b ++ f :: c)).Perm (a ++ f :: (b ++ c)) := h1.append_left a
  have h3 : (a ++ f :: (b ++ c)).Perm (f :: (a ++ (b ++ c))) := List.perm_middle
  exact (h2.trans h3).nodup_iff

theorem push_eq_append (s : StackPool) (v : Int) (head : Nat)
    (hh : head ≤ s.pool.length) (hf : s.free_nodes = 0) :
    push s v head =
      (some (s.pool.length + 1), ⟨s.pool ++ [⟨v, head⟩], s.free_nodes⟩) := by
  simp [push, pushImpl, empty?, checkPositive, hf, hh]

theorem push_eq_recycle (s : StackPool) (v : Int) (head : Nat) (nd : Node)
    (hh : head ≤ s.pool.length) (hpos : 0 < s.free_nodes)
    (hget : s.pool[s.free_nodes - 1]? = some nd) :
    push s v head =
      (some s.free_nodes, ⟨s.pool.set (s.free_nodes - 1) ⟨v, head⟩, nd.next⟩) := by
  have hle : s.free_nodes ≤ s.pool.length := by
    have := (List.getElem?_eq_some.mp hget).1
    omega
  have hne : (s.free_nodes == 0) = false := by
    simp
    omega
  simp [push, pushImpl, empty?, checkPositive, hh, hle, hne, hget]

theorem pop_eq (s : StackPool) (x : Nat) (nd : Node) (hpos : 0 < x)
    (hne : x ≠ s.free_nodes) (hget : s.pool[x - 1]? = some nd) :
    pop s x = (some nd.next, ⟨s.pool.set (x - 1) ⟨nd.value, s.free_nodes⟩, x⟩) := by
  have hle : x ≤ s.pool.length := by
    have := (List.getElem?_eq_some.mp hget).1
    omega
  simp [pop, checkStrictPositive, hpos, hle, hne, hget]

theorem push_step (s : StackPool) (v : Int) (h hm : Nat)
    (L M : List (Nat × Int)) (fs : List Nat)
    (hInv : ChainInv s h L hm M fs) :
    ∃ h2 s2 fs2, push s v h = (some h2, s2) ∧
      ChainInv s2 h2 ((h2, v) :: L) hm M fs2 := by
  obtain ⟨hL, hM, hF, hND⟩ := hInv
  have hh : h ≤ s.pool.length := isVChain_head_le _ _ _ hL
  cases fs with
  | nil =>
      have hf0 : s.free_nodes = 0 := (isChain_nil_iff _ _).mp hF
      refine ⟨s.pool.length + 1, ⟨s.pool ++ [⟨v, h⟩], s.free_nodes⟩, [],
        push_eq_append s v h hh hf0, ?_, ?_, ?_, ?_⟩
      · refine isVChain_cons_intro _ _ _ h _ ?_ (by omega)
          (isVChain_append _ _ _ _ hL)
        simp
      · exact isVChain_append _ _ _ _ hM
      · simpa [isChain_nil_iff] using hf0
      · simp only [List.map_cons, List.cons_append, List.nodup_cons,
          List.append_nil] at *
        refine ⟨?_, hND⟩
        intro hmem
        rcases List.mem_append.mp hmem with hmemL | hmemM
        · have := isVChain_mem_pos_le _ _ _ hL _ hmemL
          omega
        · have := isVChain_mem_pos_le _ _ _ hM _ hmemM
          omega
  | cons f fs2 =>
      rcases (isChain_cons_iff _ _ _ _).mp hF with ⟨hfh, hfpos, ndf, hfget, hfrest⟩
      subst hfh
      have hndx := (nodup_middle_iff _ _ _ _).mp hND
      have hnotin : s.free_nodes ∉ L.map Prod.fst ++ (M.map Prod.fst ++ fs2) :=
        (List.nodup_cons.mp hndx).1
      have hflt : s.free_nodes - 1 < s.pool.length :=
        (List.getElem?_eq_some.mp hfget).1
      refine ⟨s.free_nodes,
        ⟨s.pool.set (s.free_nodes - 1) ⟨v, h⟩, ndf.next⟩, fs2,
        push_eq_recycle s v h ndf hh hfpos hfget, ?_, ?_, ?_, ?_⟩
      · refine isVChain_cons_intro _ _ _ h _ ?_ hfpos
          (isVChain_set _ _ _ _ _ (fun hc => hnotin (by simp [hc])) hfpos hL)
        exact List.getElem?_set_eq_of_lt _ hflt
      · exact isVChain_set _ _ _ _ _
          (fun hc => hnotin (by simp [hc])) hfpos hM
      · exact isChain_set _ _ _ _ _
          (fun hc => hnotin (by simp [hc])) hfpos hfrest
      · simpa [List.cons_append] using hndx

theorem pop_step (s : StackPool) (x : Nat) (v : Int) (hm : Nat)
    (L M : List (Nat × Int)) (fs : List Nat)
    (hInv : ChainInv s x ((x, v) :: L) hm M fs) :
    ∃ h2 s2, value? s x = some v ∧ pop s x = (some h2, s2) ∧
      ChainInv s2 h2 L hm M (x :: fs) ∧ s2.pool.length = s.pool.length := by
  obtain ⟨hL, hM, hF, hND⟩ := hInv
  rcases (isVChain_cons_iff _ _ _ _).mp hL with ⟨_, hpos, nd, hget, hval, hrest⟩
  have hlt : x - 1 < s.pool.length := (List.getElem?_eq_some.mp hget).1
  have hle : x ≤ s.pool.length := by omega
  have hndx : (x :: (L.map Prod.fst ++ (M.map Prod.fst ++ fs))).Nodup := by
    simpa [List.cons_append] using hND
  have hnotin : x ∉ L.map Prod.fst ++ (M.map Prod.fst ++ fs) :=
    (List.nodup_cons.mp hndx).1
  have hxfree : x ≠ s.free_nodes := by
    cases fs with
    | nil =>
        have hf0 : s.free_nodes = 0 := (isChain_nil_iff _ _).mp hF
        omega
    | cons f fs2 =>
        rcases (isChain_cons_iff _ _ _ _).mp hF with ⟨hfh, _, _, _, _⟩
        intro he
        exact hnotin (by simp [he, hfh])
  have hpop := pop_eq s x nd hpos hxfree hget
  refine ⟨nd.next, ⟨s.pool.set (x - 1) ⟨nd.value, s.free_nodes⟩, x⟩, ?_, hpop,
    ⟨?_, ?_, ?_, ?_⟩, ?_⟩
  · simp [value?, checkStrictPositive, hpos, hle, hget, hval]
  · exact isVChain_set _ x _ _ _
      (fun hc => hnotin (by simp [hc])) hpos hrest
  · exact isVChain_set _ x _ _ _
      (fun hc => hnotin (by simp [hc])) hpos hM
  · refine isChain_cons_intro _ x s.free_nodes _ ⟨nd.value, s.free_nodes⟩
      ?_ rfl hpos (isChain_set _ x _ _ _
        (fun hc => hnotin (by simp [hc])) hpos hF)
    exact List.getElem?_set_eq_of_lt _ hlt
  · exact (nodup_middle_iff _ _ _ _).mpr hndx
  · simp

end StackPool

namespace StackPool

theorem nodup_swap (a b c : List Nat) (h : (a ++ (b ++ c)).Nodup) :
    (b ++ (a ++ c)).Nodup := by
  have h1 : (a ++ b).Perm (b ++ a) := List.perm_append_comm
  have h2 : ((a ++ b) ++ c).Perm ((b ++ a) ++ c) := h1.append_right c
  simp only [List.append_assoc] at h2
  exact h2.nodup_iff.mp h

theorem chainInv_swap (s : StackPool) (h hm : Nat) (L M : List (Nat × Int))
    (fs : List Nat) (hInv : ChainInv s h L hm M fs) :
    ChainInv s hm M h L fs :=
  ⟨hInv.2.1, hInv.1, hInv.2.2.1, nodup_swap _ _ _ hInv.2.2.2⟩

theorem pushMany_spec (vs : List Int) (s : StackPool) (h hm : Nat)
    (L M : List (Nat × Int)) (fs : List Nat)
    (hInv : ChainInv s h L hm M fs) :
    ∃ s2 h2 L2 fs2, pushMany s h vs = some (s2, h2) ∧
      ChainInv s2 h2 L2 hm M fs2 ∧
      L2.map Prod.snd = vs.reverse ++ L.map Prod.snd := by
  induction vs generalizing s h L fs with
  | nil => exact ⟨s, h, L, fs, rfl, hInv, by simp⟩
  | cons v vs ih =>
      obtain ⟨h2, s2, fs2, hpush, hInv2⟩ := push_step s v h hm L M fs hInv
      obtain ⟨s3, h3, L3, fs3, hmany, hInv3, hvals⟩ :=
        ih s2 h2 ((h2, v) :: L) fs2 hInv2
      refine ⟨s3, h3, L3, fs3, ?_, hInv3, ?_⟩
      · simp [pushMany, hpush, hmany]
      · simp [hvals, List.append_assoc]

theorem popReadMany_spec (L : List (Nat × Int)) (s : StackPool) (h hm : Nat)
    (M : List (Nat × Int)) (fs : List Nat)
    (hInv : ChainInv s h L hm M fs) :
    ∃ s2, popReadMany L.length s h = some (L.map Prod.snd, s2, 0) ∧
      ChainInv s2 0 [] hm M ((L.map Prod.fst).reverse ++ fs) := by
  induction L generalizing s h fs with
  | nil =>
      have h0 : h = 0 := (isVChain_nil_iff _ _).mp hInv.1
      exact ⟨s, by simp [popReadMany, h0], by simpa [h0] using hInv⟩
  | cons e L ih =>
      have he : h = e.1 := ((isVChain_cons_iff _ _ _ _).mp hInv.1).1
      subst he
      obtain ⟨h2, s2, hval, hpop, hInv2, hlen⟩ :=
        pop_step s e.1 e.2 hm L M fs (by simpa using hInv)
      obtain ⟨s3, hru, hInv3⟩ := ih s2 h2 (e.1 :: fs) hInv2
      refine ⟨s3, ?_, ?_⟩
      · simp [popReadMany, hval, hpop, hru]
      · simpa [List.reverse_cons, List.append_assoc] using hInv3

theorem freeStackLoop_spec (L : List (Nat × Int)) (s : StackPool) (h hm : Nat)
    (M : List (Nat × Int)) (fs : List Nat) (fuel : Nat)
    (hInv : ChainInv s h L hm M fs) (hfuel : L.length + 1 ≤ fuel) :
    ∃ s2, freeStackLoop fuel s h = (some 0, s2) ∧
      ChainInv s2 0 [] hm M ((L.map Prod.fst).reverse ++ fs) ∧
      s2.pool.length = s.pool.length := by
  induction L generalizing s h fs fuel with
  | nil =>
      have h0 : h = 0 := (isVChain_nil_iff _ _).mp hInv.1
      obtain ⟨f2, rfl⟩ : ∃ f2, fuel = f2 + 1 := ⟨fuel - 1, by omega⟩
      refine ⟨s, ?_, by simpa [h0] using hInv, rfl⟩
      simp [freeStackLoop, empty?, checkPositive, h0]
  | cons e L ih =>
      have he : h = e.1 := ((isVChain_cons_iff _ _ _ _).mp hInv.1).1
      subst he
      rcases (isVChain_cons_iff _ _ _ _).mp hInv.1 with ⟨_, hpos, nd, hget, _, _⟩
      have hle : e.1 ≤ s.pool.length := by
        have := (List.getElem?_eq_some.mp hget).1
        omega
      have hne : (e.1 == 0) = false := by
        simp
        omega
      obtain ⟨h2, s2, hval, hpop, hInv2, hlen⟩ :=
        pop_step s e.1 e.2 hm L M fs (by simpa using hInv)
      obtain ⟨f2, rfl⟩ : ∃ f2, fuel = f2 + 1 := ⟨fuel - 1, by omega⟩
      obtain ⟨s3, hloop, hInv3, hlen3⟩ := ih s2 h2 (e.1 :: fs) f2 hInv2
        (by simp at hfuel ⊢; omega)
      refine ⟨s3, ?_, ?_, by omega⟩
      · simp [freeStackLoop, empty?, checkPositive, hle, hne, hpop, hloop]
      · simpa [List.reverse_cons, List.append_assoc] using hInv3

end StackPool

namespace TwoCfg

theorem runOp_inv (c c2 : TwoCfg) (op : SOp) (hInv : TwoInv c)
    (hrun : runOp c op = some c2) : TwoInv c2 := by
  obtain ⟨LA, LB, fs, hA, hB, hF, hND⟩ := hInv
  cases op with
  | pushA v =>
      obtain ⟨h2, s2, fs2, hpush, hInv2⟩ :=
        StackPool.push_step c.s v c.a c.b LA LB fs ⟨hA, hB, hF, hND⟩
      simp [runOp, hpush] at hrun
      exact hrun ▸ ⟨(h2, v) :: LA, LB, fs2, hInv2.1, hInv2.2.1,
        hInv2.2.2.1, hInv2.2.2.2⟩
  | pushB v =>
      obtain ⟨h2, s2, fs2, hpush, hInv2⟩ :=
        StackPool.push_step c.s v c.b c.a LB LA fs
          ⟨hB, hA, hF, StackPool.nodup_swap _ _ _ hND⟩
      simp [runOp, hpush] at hrun
      exact hrun ▸ ⟨LA, (h2, v) :: LB, fs2, hInv2.2.1, hInv2.1,
        hInv2.2.2.1, StackPool.nodup_swap _ _ _ hInv2.2.2.2⟩
  | popA =>
      cases LA with
      | nil =>
          have h0 : c.a = 0 := (StackPool.isVChain_nil_iff _ _).mp hA
          simp [runOp, StackPool.pop, StackPool.checkStrictPositive, h0] at hrun
      | cons e LA2 =>
          have he : c.a = e.1 :=
            ((StackPool.isVChain_cons_iff _ _ _ _).mp hA).1
          obtain ⟨h2, s2, hval, hpop, hInv2, hlen⟩ :=
            StackPool.pop_step c.s e.1 e.2 c.b LA2 LB fs
              ⟨by simpa using (he ▸ hA), hB, hF, by simpa [he] using hND⟩
          simp [runOp, he, hpop] at hrun
          exact hrun ▸ ⟨LA2, LB, e.1 :: fs, hInv2.1, hInv2.2.1,
            hInv2.2.2.1, hInv2.2.2.2⟩
  | popB =>
      cases LB with
      | nil =>
          have h0 : c.b = 0 := (StackPool.isVChain_nil_iff _ _).mp hB
          simp [runOp, StackPool.pop, StackPool.checkStrictPositive, h0] at hrun
      | cons e LB2 =>
          have he : c.b = e.1 :=
            ((StackPool.isVChain_cons_iff _ _ _ _).mp hB).1
          obtain ⟨h2, s2, hval, hpop, hInv2, hlen⟩ :=
            StackPool.pop_step c.s e.1 e.2 c.a LB2 LA fs
              ⟨by simpa using (he ▸ hB), hA, hF,
                by simpa [he] using StackPool.nodup_swap _ _ _ hND⟩
          simp [runOp, he, hpop] at hrun
          exact hrun ▸ ⟨LA, LB2, e.1 :: fs,
            hInv2.2.1, hInv2.1, hInv2.2.2.1,
            StackPool.nodup_swap _ _ _ hInv2.2.2.2⟩

theorem runOps_inv (ops : List SOp) (c c2 : TwoCfg) (hInv : TwoInv c)
    (hrun : runOps c ops = some c2) : TwoInv c2 := by
  induction ops generalizing c with
  | nil =>
      simp [runOps] at hrun
      rwa [← hrun]
  | cons op ops ih =>
      cases hop : runOp c op with
      | none => simp [runOps, hop] at hrun
      | some c3 =>
          simp [runOps, hop] at hrun
          exact ih c3 (runOp_inv c c3 op hInv hop) hrun

theorem twoInv_init : TwoInv initCfg :=
  ⟨[], [], [], by decide, by decide, by decide, by simp⟩

end TwoCfg

namespace StackPool

theorem free_stack_spec (x : Nat) (v : Int) (L : List (Nat × Int))
    (s : StackPool) (fs : List Nat) (fuel : Nat)
    (hInv : ChainInv s x ((x, v) :: L) 0 [] fs)
    (hfuel : L.length + 2 ≤ fuel) :
    ∃ s2, free_stack fuel s x = (some 0, s2) ∧
      ChainInv s2 0 [] 0 [] ((((x, v) :: L).map Prod.fst).reverse ++ fs) ∧
      s2.pool.length = s.pool.length := by
  rcases (isVChain_cons_iff _ _ _ _).mp hInv.1 with ⟨_, hpos, nd, hget, _, _⟩
  have hle : x ≤ s.pool.length := by
    have := (List.getElem?_eq_some.mp hget).1
    omega
  have hndx : (x :: (List.map Prod.fst L ++ ([] ++ fs))).Nodup := by
    simpa [List.cons_append] using hInv.2.2.2
  have hnotin := (List.nodup_cons.mp hndx).1
  have hxf : x ≠ s.free_nodes := by
    cases hfs : fs with
    | nil =>
        have h0 : s.free_nodes = 0 :=
          (isChain_nil_iff _ _).mp (hfs ▸ hInv.2.2.1)
        omega
    | cons f fs2 =>
        rcases (isChain_cons_iff _ _ _ _).mp (hfs ▸ hInv.2.2.1) with
          ⟨hfh, _, _, _, _⟩
        intro he
        exact hnotin (by simp [hfs, he, hfh])
  obtain ⟨s2, hrun, hInv2, hlen⟩ :=
    freeStackLoop_spec ((x, v) :: L) s x 0 [] fs fuel hInv
      (by simpa using hfuel)
  refine ⟨s2, ?_, hInv2, hlen⟩
  simpa [free_stack, checkStrictPositive, hpos, hle, hxf] using hrun

end StackPool

/-- C1: LIFO law — for every sequence of values pushed onto a fresh
(sentinel-headed) stack of a pool whose free list is a structurally
valid (duplicate-free, sentinel-terminated) chain, performing the same
number of pops, reading the head value before each pop, yields exactly
those values in reverse order of insertion, and the final head is the
sentinel. -/
theorem c1_lifo_law (s : StackPool) (fs : List Nat) (vs : List Int)
    (s1 : StackPool) (h1 : Nat)
    (hfs : StackPool.isChain s.pool s.free_nodes fs = true)
    (hnd : fs.Nodup)
    (hpush : StackPool.pushMany s StackPool.new_stack vs = some (s1, h1)) :
    ∃ s2, StackPool.popReadMany vs.length s1 h1 =
      some (vs.reverse, s2, 0) := by
  have hInv : StackPool.ChainInv s StackPool.new_stack [] 0 [] fs :=
    ⟨by simp [StackPool.isVChain, StackPool.new_stack, StackPool.endh],
     by simp [StackPool.isVChain], hfs, by simpa using hnd⟩
  obtain ⟨s2, h2, L2, fs2, hmany, hInv2, hvals⟩ :=
    StackPool.pushMany_spec vs s StackPool.new_stack 0 [] [] fs hInv
  rw [hpush] at hmany
  simp only [Option.some.injEq, Prod.mk.injEq] at hmany
  obtain ⟨hs12, hh12⟩ := hmany
  subst hs12
  subst hh12
  have hlen : vs.length = L2.length := by
    have hl := congrArg List.length hvals
    simpa using hl.symm
  obtain ⟨s3, hpops, _⟩ :=
    StackPool.popReadMany_spec L2 s1 h1 0 [] fs2 hInv2
  refine ⟨s3, ?_⟩
  rw [hlen, hpops]
  simp [hvals]

/-- Witness for C1 at a concrete input: pushing `[1, 2]` onto a fresh
stack of the empty pool and popping twice yields `[2, 1]`. -/
theorem c1_lifo_law_witness :
    StackPool.isChain StackPool.init.pool StackPool.init.free_nodes []
      = true ∧
    ([] : List Nat).Nodup ∧
    ∃ s2, StackPool.popReadMany 2 ⟨[⟨1, 0⟩, ⟨2, 1⟩], 0⟩ 2 =
      some ([2, 1], s2, 0) :=
  ⟨by decide, by decide,
   c1_lifo_law StackPool.init [] [1, 2] ⟨[⟨1, 0⟩, ⟨2, 1⟩], 0⟩ 2
     (by decide) (by decide) (by decide)⟩

/-- C2 counterexample: the claim says `free_stack` applied to a stack of
length 0 (head = sentinel) does not fail and returns the sentinel.  The
code's `AP_ERROR_CUSTOM_STRICT_POSITIVE` check requires the head to be
strictly positive, so `free_stack(0)` throws `Invalid_input` on any
pool (here: the empty pool and a one-node pool, any fuel bound far above
what the loop would need). -/
theorem c2_counterexample :
    StackPool.free_stack 5 StackPool.init 0 = (none, StackPool.init) ∧
    StackPool.free_stack 5 ⟨[⟨7, 0⟩], 0⟩ 0 = (none, ⟨[⟨7, 0⟩], 0⟩) := by
  decide

/-- C2 (amended): `free_stack` applied to the head of a well-formed
NONEMPTY stack (disjoint from a well-formed free list) terminates,
recycles every node of that stack into the free list, and returns the
sentinel; applied to the sentinel — a stack of length 0 — it always
fails the strict positivity check (and the pool is left unchanged). -/
theorem c2_free_stack_amended (x : Nat) (v : Int) (L : List (Nat × Int))
    (s : StackPool) (fs : List Nat) (fuel : Nat)
    (hInv : StackPool.ChainInv s x ((x, v) :: L) 0 [] fs)
    (hfuel : L.length + 2 ≤ fuel) :
    ((StackPool.free_stack fuel s x).1 = some 0 ∧
      StackPool.isChain (StackPool.free_stack fuel s x).2.pool
        (StackPool.free_stack fuel s x).2.free_nodes
        ((((x, v) :: L).map Prod.fst).reverse ++ fs) = true) ∧
    ∀ (s3 : StackPool) (f3 : Nat),
      StackPool.free_stack f3 s3 0 = (none, s3) := by
  constructor
  · obtain ⟨s2, hfx, hInv2, _⟩ :=
      StackPool.free_stack_spec x v L s fs fuel hInv hfuel
    rw [hfx]
    exact ⟨rfl, by simpa using hInv2.2.2.1⟩
  · intro s3 f3
    simp [StackPool.free_stack, StackPool.checkStrictPositive]

/-- Witness for C2 (amended) at a concrete input: freeing the one-node
stack `[5]` headed by handle 1 succeeds and puts handle 1 on the free
list; freeing the sentinel fails on the empty pool. -/
theorem c2_free_stack_amended_witness :
    ((StackPool.free_stack 3 ⟨[⟨5, 0⟩], 0⟩ 1).1 = some 0 ∧
      StackPool.isChain (StackPool.free_stack 3 ⟨[⟨5, 0⟩], 0⟩ 1).2.pool
        (StackPool.free_stack 3 ⟨[⟨5, 0⟩], 0⟩ 1).2.free_nodes [1] = true) ∧
    StackPool.free_stack 3 StackPool.init 0 = (none, StackPool.init) :=
  ⟨(c2_free_stack_amended 1 5 [] ⟨[⟨5, 0⟩], 0⟩ [] 3
      ⟨by decide, by decide, by decide, by decide⟩ (by decide)).1,
   (c2_free_stack_amended 1 5 [] ⟨[⟨5, 0⟩], 0⟩ [] 3
      ⟨by decide, by decide, by decide, by decide⟩ (by decide)).2
     StackPool.init 3⟩

/-- C3 counterexample: running the claimed scenario, the final
`push(30, sentinel)` returns handle 1 — the slot vacated by the SECOND
pop (`pop(h1)`) — not the slot vacated by the first pop (`pop(h2)`,
which vacated handle 2), because the free list is itself LIFO.  Every
other step of the claim is reproduced exactly. -/
theorem c3_counterexample :
    StackPool.new_stack = 0 ∧
    StackPool.push StackPool.init 10 0 = (some 1, ⟨[⟨10, 0⟩], 0⟩) ∧
    StackPool.push ⟨[⟨10, 0⟩], 0⟩ 20 1 =
      (some 2, ⟨[⟨10, 0⟩, ⟨20, 1⟩], 0⟩) ∧
    StackPool.iterList 3 ⟨[⟨10, 0⟩, ⟨20, 1⟩], 0⟩ 2 = some [20, 10] ∧
    StackPool.value? ⟨[⟨10, 0⟩, ⟨20, 1⟩], 0⟩ 2 = some 20 ∧
    StackPool.pop ⟨[⟨10, 0⟩, ⟨20, 1⟩], 0⟩ 2 =
      (some 1, ⟨[⟨10, 0⟩, ⟨20, 0⟩], 2⟩) ∧
    StackPool.value? ⟨[⟨10, 0⟩, ⟨20, 0⟩], 2⟩ 1 = some 10 ∧
    StackPool.pop ⟨[⟨10, 0⟩, ⟨20, 0⟩], 2⟩ 1 =
      (some 0, ⟨[⟨10, 2⟩, ⟨20, 0⟩], 1⟩) ∧
    (StackPool.push ⟨[⟨10, 2⟩, ⟨20, 0⟩], 1⟩ 30 0).1 = some 1 ∧
    (1 : Nat) ≠ 2 := by
  decide

/-- C3 (amended): the concrete scenario holds with one correction —
the final `push(30, sentinel)` reuses the slot vacated by the MOST
RECENT pop (handle 1, the old `h1`), not the first pop, and does not
grow the backing array (its length stays 2). -/
theorem c3_concrete_scenario :
    StackPool.new_stack = 0 ∧
    StackPool.push StackPool.init 10 0 = (some 1, ⟨[⟨10, 0⟩], 0⟩) ∧
    StackPool.push ⟨[⟨10, 0⟩], 0⟩ 20 1 =
      (some 2, ⟨[⟨10, 0⟩, ⟨20, 1⟩], 0⟩) ∧
    StackPool.iterList 3 ⟨[⟨10, 0⟩, ⟨20, 1⟩], 0⟩ 2 = some [20, 10] ∧
    StackPool.value? ⟨[⟨10, 0⟩, ⟨20, 1⟩], 0⟩ 2 = some 20 ∧
    StackPool.pop ⟨[⟨10, 0⟩, ⟨20, 1⟩], 0⟩ 2 =
      (some 1, ⟨[⟨10, 0⟩, ⟨20, 0⟩], 2⟩) ∧
    StackPool.value? ⟨[⟨10, 0⟩, ⟨20, 0⟩], 2⟩ 1 = some 10 ∧
    StackPool.pop ⟨[⟨10, 0⟩, ⟨20, 0⟩], 2⟩ 1 =
      (some 0, ⟨[⟨10, 2⟩, ⟨20, 0⟩], 1⟩) ∧
    StackPool.push ⟨[⟨10, 2⟩, ⟨20, 0⟩], 1⟩ 30 0 =
      (some 1, ⟨[⟨30, 0⟩, ⟨20, 0⟩], 2⟩) ∧
    (⟨[⟨30, 0⟩, ⟨20, 0⟩], 2⟩ : StackPool).pool.length = 2 := by
  decide

/-- C4: free-list reuse before growth — (a) after `free_stack` on a
well-formed nonempty stack, every node formerly reachable from the head
is reachable from the new free list; (b) for every pool state with a
non-empty (in-range) free list, `push` does not append to the backing
array: the array length is unchanged and the returned handle is the
recycled old free-list head, so the array grows only when the free list
is exhausted. -/
theorem c4_reuse_before_growth :
    (∀ (x : Nat) (v : Int) (L : List (Nat × Int)) (s : StackPool)
        (fs : List Nat) (fuel : Nat),
        StackPool.ChainInv s x ((x, v) :: L) 0 [] fs →
        L.length + 2 ≤ fuel →
        (StackPool.free_stack fuel s x).1 = some 0 ∧
        ∃ fs2, StackPool.isChain (StackPool.free_stack fuel s x).2.pool
            (StackPool.free_stack fuel s x).2.free_nodes fs2 = true ∧
          ∀ y ∈ ((x, v) :: L).map Prod.fst, y ∈ fs2) ∧
    (∀ (s : StackPool) (v : Int) (head : Nat),
        0 < s.free_nodes → s.free_nodes ≤ s.pool.length →
        head ≤ s.pool.length →
        (StackPool.push s v head).1 = some s.free_nodes ∧
        (StackPool.push s v head).2.pool.length = s.pool.length) := by
  constructor
  · intro x v L s fs fuel hInv hfuel
    obtain ⟨s2, hfx, hInv2, _⟩ :=
      StackPool.free_stack_spec x v L s fs fuel hInv hfuel
    rw [hfx]
    refine ⟨rfl, (((x, v) :: L).map Prod.fst).reverse ++ fs,
      by simpa using hInv2.2.2.1, ?_⟩
    intro y hy
    exact List.mem_append_left _ (List.mem_reverse.mpr hy)
  · intro s v head hpos hle hh
    have hlt : s.free_nodes - 1 < s.pool.length := by omega
    obtain ⟨nd, hget⟩ : ∃ nd, s.pool[s.free_nodes - 1]? = some nd :=
      ⟨_, List.getElem?_eq_getElem hlt⟩
    have hpush := StackPool.push_eq_recycle s v head nd hh hpos hget
    rw [hpush]
    exact ⟨rfl, by simp⟩

/-- Witness for C4 at a concrete input: freeing the one-node stack `[5]`
succeeds; pushing onto the pool `[⟨5,0⟩]` with free head 1 reuses handle
1 and keeps the array length at 1. -/
theorem c4_reuse_before_growth_witness :
    (StackPool.free_stack 3 ⟨[⟨5, 0⟩], 0⟩ 1).1 = some 0 ∧
    (StackPool.push ⟨[⟨5, 0⟩], 1⟩ 7 1).1 = some 1 ∧
    (StackPool.push ⟨[⟨5, 0⟩], 1⟩ 7 1).2.pool.length = 1 :=
  ⟨(c4_reuse_before_growth.1 1 5 [] ⟨[⟨5, 0⟩], 0⟩ [] 3
      ⟨by decide, by decide, by decide, by decide⟩ (by decide)).1,
   (c4_reuse_before_growth.2 ⟨[⟨5, 0⟩], 1⟩ 7 1 (by decide) (by decide)
      (by decide)).1,
   (c4_reuse_before_growth.2 ⟨[⟨5, 0⟩], 1⟩ 7 1 (by decide) (by decide)
      (by decide)).2⟩

/-- C5 counterexample: `free_stack` is NOT atomic on failure.  Starting
from the empty pool, the state `⟨[⟨2, 1⟩], 0⟩` (one node whose `next` is
itself) is reached by public operations alone — `push 5`, `pop`, then
`push 2` onto the head that equals the free-list head.  On that state
`free_stack(1)` throws (the second loop iteration pops the free-list
head), yet the pool has already been mutated: the failure state differs
from the input state.  The fuel bound 9 is not the limiting factor: the
loop fails at its second iteration. -/
theorem c5_counterexample :
    StackPool.push StackPool.init 5 0 = (some 1, ⟨[⟨5, 0⟩], 0⟩) ∧
    StackPool.pop ⟨[⟨5, 0⟩], 0⟩ 1 = (some 0, ⟨[⟨5, 0⟩], 1⟩) ∧
    StackPool.push ⟨[⟨5, 0⟩], 1⟩ 2 1 = (some 1, ⟨[⟨2, 1⟩], 0⟩) ∧
    (StackPool.free_stack 9 ⟨[⟨2, 1⟩], 0⟩ 1).1 = none ∧
    (StackPool.free_stack 9 ⟨[⟨2, 1⟩], 0⟩ 1).2 ≠ ⟨[⟨2, 1⟩], 0⟩ := by
  decide

/-- C5 (amended): `push` and `pop` do validate before any mutation —
whenever they fail the returned pool state equals the input state.
(`value`, `next`, `empty` and `begin` are modelled as pure readers and
never mutate.)  `free_stack`, however, is not atomic on failure: see the
counterexample. -/
theorem c5_push_pop_atomic (s : StackPool) (v : Int) (h x : Nat) :
    ((StackPool.push s v h).1 = none → (StackPool.push s v h).2 = s) ∧
    ((StackPool.pop s x).1 = none → (StackPool.pop s x).2 = s) := by
  constructor
  · intro hfail
    by_cases hcp : StackPool.checkPositive s h = true
    · cases hemp : StackPool.empty? s s.free_nodes with
      | none => simp [StackPool.push, StackPool.pushImpl, hcp, hemp]
      | some b =>
          cases b with
          | true =>
              simp [StackPool.push, StackPool.pushImpl, hcp, hemp] at hfail
          | false =>
              cases hget : s.pool[s.free_nodes - 1]? with
              | none =>
                  simp [StackPool.push, StackPool.pushImpl, hcp, hemp, hget]
              | some nd =>
                  simp [StackPool.push, StackPool.pushImpl, hcp, hemp,
                    hget] at hfail
    · simp [StackPool.push, hcp]
  · intro hfail
    by_cases hcp : StackPool.checkStrictPositive s x = true
    · by_cases hne : x ≠ s.free_nodes
      · cases hget : s.pool[x - 1]? with
        | none => simp [StackPool.pop, hcp, hne, hget]
        | some nd => simp [StackPool.pop, hcp, hne, hget] at hfail
      · simp [StackPool.pop, hcp, hne]
    · simp [StackPool.pop, hcp]

/-- Witness for C5 (amended) at a concrete input: on the empty pool,
`push` with out-of-range head 5 fails and leaves the pool unchanged, and
`pop 1` fails and leaves the pool unchanged. -/
theorem c5_push_pop_atomic_witness :
    (StackPool.push StackPool.init 3 5).2 = StackPool.init ∧
    (StackPool.pop StackPool.init 1).2 = StackPool.init :=
  ⟨(c5_push_pop_atomic StackPool.init 3 5 1).1 (by decide),
   (c5_push_pop_atomic StackPool.init 3 5 1).2 (by decide)⟩

/-- C6 counterexample: the claim says `pop(h)` fails exactly when `h` is
the sentinel or exceeds the array length.  On the reachable state
`⟨[⟨5, 0⟩], 1⟩` (push then pop), `pop 1` fails although `1` is in range
`[1, length]` — the extra `x != free_nodes` check rejects it. -/
theorem c6_counterexample :
    StackPool.push StackPool.init 5 0 = (some 1, ⟨[⟨5, 0⟩], 0⟩) ∧
    StackPool.pop ⟨[⟨5, 0⟩], 0⟩ 1 = (some 0, ⟨[⟨5, 0⟩], 1⟩) ∧
    (StackPool.pop ⟨[⟨5, 0⟩], 1⟩ 1).1 = none ∧
    ¬(1 = 0 ∨ (⟨[⟨5, 0⟩], 1⟩ : StackPool).pool.length < 1) := by
  decide

/-- C6 (amended): `value(h)` and `next(h)` fail exactly when `h` is the
sentinel or exceeds the backing-array length; `pop(h)` performs the same
range check but additionally fails when `h` equals the current free-list
head.  In particular, for `1 ≤ h ≤ length` the range check itself never
fails. -/
theorem c6_strict_handle_boundary (s : StackPool) (x : Nat) :
    (StackPool.value? s x = none ↔ x = 0 ∨ s.pool.length < x) ∧
    (StackPool.next? s x = none ↔ x = 0 ∨ s.pool.length < x) ∧
    ((StackPool.pop s x).1 = none ↔
      x = 0 ∨ s.pool.length < x ∨ x = s.free_nodes) := by
  by_cases hc : StackPool.checkStrictPositive s x = true
  · have hx : 0 < x ∧ x ≤ s.pool.length := by
      simpa [StackPool.checkStrictPositive] using hc
    obtain ⟨nd, hget⟩ : ∃ nd, s.pool[x - 1]? = some nd :=
      ⟨_, List.getElem?_eq_getElem (by omega)⟩
    refine ⟨?_, ?_, ?_⟩
    · simp [StackPool.value?, hc, hget]
      omega
    · simp [StackPool.next?, hc, hget]
      omega
    · by_cases hne : x = s.free_nodes
      · simp [StackPool.pop, hc, hne]
      · simp [StackPool.pop, hc, hne, hget]
        omega
  · have hx : ¬(0 < x ∧ x ≤ s.pool.length) := by
      simpa [StackPool.checkStrictPositive] using hc
    refine ⟨?_, ?_, ?_⟩
    · simp [StackPool.value?, hc]
      omega
    · simp [StackPool.next?, hc]
      omega
    · simp [StackPool.pop, hc]
      omega

/-- C7: for every pool state — whatever the value of `free_nodes` —
popping the handle that currently equals the free-list head fails: when
`free_nodes` is the sentinel or out of range the strict range check
rejects it, and otherwise the dedicated `x != free_nodes` check does.
The free list can never be popped as if it were a caller stack. -/
theorem c7_pop_free_list_rejected (s : StackPool) :
    (StackPool.pop s s.free_nodes).1 = none := by
  unfold StackPool.pop
  split
  · simp
  · rfl

/-- C8: stack isolation — for any two stacks A and B built by an
arbitrary history of push/pop operations on the same pool, starting from
two fresh stacks of the empty pool: (1) no handle is reachable from both
heads; (2) a push onto A leaves the `value` and `next` fields of every
node reachable from B's head unchanged. -/
theorem c8_stack_isolation (ops : List SOp) (c : TwoCfg)
    (hrun : TwoCfg.runOps TwoCfg.initCfg ops = some c) :
    (∀ LA LB, StackPool.isVChain c.s.pool c.a LA = true →
        StackPool.isVChain c.s.pool c.b LB = true →
        ∀ y, y ∈ LA.map Prod.fst → y ∈ LB.map Prod.fst → False) ∧
    (∀ (v : Int) (h2 : Nat) (s2 : StackPool),
        StackPool.push c.s v c.a = (some h2, s2) →
        ∀ LB, StackPool.isVChain c.s.pool c.b LB = true →
        ∀ y ∈ LB.map Prod.fst, s2.pool[y - 1]? = c.s.pool[y - 1]?) := by
  obtain ⟨LA0, LB0, fs0, hA0, hB0, hF0, hND0⟩ :=
    TwoCfg.runOps_inv ops TwoCfg.initCfg c TwoCfg.twoInv_init hrun
  constructor
  · intro LA LB hA hB y hyA hyB
    have eA : LA = LA0 := StackPool.isVChain_unique _ _ _ _ hA hA0
    have eB : LB = LB0 := StackPool.isVChain_unique _ _ _ _ hB hB0
    have hdisj := (List.nodup_append.mp hND0).2.2
    exact hdisj (eA ▸ hyA) (List.mem_append_left _ (eB ▸ hyB))
  · intro v h2 s2 hpush LB hB y hy
    have eB : LB = LB0 := StackPool.isVChain_unique _ _ _ _ hB hB0
    have hybound := StackPool.isVChain_mem_pos_le _ _ _ hB0 y (eB ▸ hy)
    have hhA : c.a ≤ c.s.pool.length := StackPool.isVChain_head_le _ _ _ hA0
    cases hfs : fs0 with
    | nil =>
        have hf0 : c.s.free_nodes = 0 :=
          (StackPool.isChain_nil_iff _ _).mp (hfs ▸ hF0)
        rw [StackPool.push_eq_append c.s v c.a hhA hf0] at hpush
        simp only [Prod.mk.injEq, Option.some.injEq] at hpush
        rw [← hpush.2]
        exact List.getElem?_append_left (by omega)
    | cons f fs2 =>
        rcases (StackPool.isChain_cons_iff _ _ _ _).mp (hfs ▸ hF0) with
          ⟨hfh, hfpos, ndf, hfget, _⟩
        rw [StackPool.push_eq_recycle c.s v c.a ndf hhA
          (by omega) (by rw [hfh]; exact hfget)] at hpush
        simp only [Prod.mk.injEq, Option.some.injEq] at hpush
        rw [← hpush.2]
        have hyne : y ≠ f := by
          intro he
          have hnd2 := (List.nodup_append.mp
            ((List.nodup_append.mp hND0).2.1)).2.2
          exact hnd2 (eB ▸ hy) (by simp [hfs, he])
        refine List.getElem?_set_ne ?_
        rw [hfh]
        omega

/-- Witness for C8 at a concrete input: after the history
`[pushA 5, pushB 7]`, pushing `9` onto stack A (handle 1) leaves the
node of stack B (handle 2) untouched. -/
theorem c8_stack_isolation_witness :
    (⟨[⟨5, 0⟩, ⟨7, 0⟩, ⟨9, 1⟩], 0⟩ : StackPool).pool[1]? =
      (⟨[⟨5, 0⟩, ⟨7, 0⟩], 0⟩ : StackPool).pool[1]? :=
  (c8_stack_isolation [SOp.pushA 5, SOp.pushB 7]
      ⟨⟨[⟨5, 0⟩, ⟨7, 0⟩], 0⟩, 1, 2⟩ (by decide)).2
    9 3 ⟨[⟨5, 0⟩, ⟨7, 0⟩, ⟨9, 1⟩], 0⟩ (by decide) [(2, 7)] (by decide)
    2 (by decide)

/-- C9: iterator equality — `operator==` on two cursors over the same
pool returns true iff their current handles are equal; in particular a
cursor whose current handle is the sentinel compares equal to the end
cursor (`end(stack_type)` ignores its argument and sits at the
sentinel).  Comparison is modelled as a pure function of the two
cursors, so it mutates neither cursor nor the pool by construction. -/
theorem c9_iterator_equality (x y : Iterator) (s : StackPool) (t : Nat) :
    (Iterator.beq x y = true ↔ x.current = y.current) ∧
    (Iterator.beq x (StackPool.endIter s t) = true ↔ x.current = 0) := by
  constructor
  · simp [Iterator.beq]
  · simp [Iterator.beq, StackPool.endIter]

/-- C10: unlike `pop` and `free_stack`, `push` does not reject a head
equal to the current free-list head.  On any pool whose free list is
non-empty (and in range), `push(v, free_nodes)` succeeds and returns the
old free head `h`, and the resulting node's `next` is `h` itself: a
self-cycle, so following `next` from `h` any number of times stays at
`h` and never reaches the sentinel. -/
theorem c10_push_free_head_self_cycle (s : StackPool) (v : Int)
    (hpos : 0 < s.free_nodes) (hle : s.free_nodes ≤ s.pool.length) :
    (StackPool.push s v s.free_nodes).1 = some s.free_nodes ∧
    StackPool.next? (StackPool.push s v s.free_nodes).2 s.free_nodes =
      some s.free_nodes ∧
    (∀ n, StackPool.nextIter (StackPool.push s v s.free_nodes).2 n
      s.free_nodes = s.free_nodes) ∧
    s.free_nodes ≠ 0 := by
  have hlt : s.free_nodes - 1 < s.pool.length := by omega
  obtain ⟨nd, hget⟩ : ∃ nd, s.pool[s.free_nodes - 1]? = some nd :=
    ⟨_, List.getElem?_eq_getElem hlt⟩
  rw [StackPool.push_eq_recycle s v s.free_nodes nd hle hpos hget]
  have hg := List.getElem?_set_eq_of_lt
    (⟨v, s.free_nodes⟩ : Node) (l := s.pool) hlt
  have hnext : StackPool.next?
      (⟨s.pool.set (s.free_nodes - 1) ⟨v, s.free_nodes⟩, nd.next⟩ : StackPool)
      s.free_nodes = some s.free_nodes := by
    simp [StackPool.next?, StackPool.checkStrictPositive, hpos, hle, hg]
  refine ⟨rfl, hnext, ?_, by omega⟩
  intro n
  induction n with
  | zero => rfl
  | succ n ih => simpa [StackPool.nextIter, hnext] using ih

/-- Witness for C10 at a concrete input: on the pool `[⟨5, 0⟩]` with
free head 1, `push 7` onto head 1 returns handle 1 and iterating `next`
three times from handle 1 still yields handle 1. -/
theorem c10_push_free_head_self_cycle_witness :
    (StackPool.push ⟨[⟨5, 0⟩], 1⟩ 7 1).1 = some 1 ∧
    StackPool.nextIter (StackPool.push ⟨[⟨5, 0⟩], 1⟩ 7 1).2 3 1 = 1 :=
  ⟨(c10_push_free_head_self_cycle ⟨[⟨5, 0⟩], 1⟩ 7 (by decide)
      (by decide)).1,
   (c10_push_free_head_self_cycle ⟨[⟨5, 0⟩], 1⟩ 7 (by decide)
      (by decide)).2.2.1 3⟩
